import Mathlib

/-!
The program publicset: a single-shot HTTP/1.0 static-file responder

A shallow embedding of `src/publicset.cpp` and theorems about it.

Conventions of the embedding.

* A `std::string` is a `List Char`; one `Char` stands for one `char` of the
  C++ string.  Character classification follows the classic "C" locale, the
  only one the program ever uses (it never installs another one).
* A stream is a record of its unread (or written) characters and of its
  state bits.  Device errors (`badbit`) are not modelled.
* The filesystem, the clock and the date facet are collaborators outside the
  repository; they are parameters of the operations that use them.  The
  filesystem is what the system call `stat` answers for each path, a file type
  and a time of last write or an error number, the same answer throughout one
  request; the queries of `boost::filesystem` are layered on it and throw a
  `filesystem_error` where Boost does.
* An operation that can throw returns an `Except`; the state it leaves behind
  is returned next to it, because the streams outlive the exception.
* The client record carries, besides its two streams, the history of the
  reads and writes made through it, in the order in which they happen.
-/

deriving instance DecidableEq for Except

namespace publicset

/-! ## Strings and streams -/

/-- A `std::string`. -/
abbrev std_string := List Char

/-- Whitespace of the classic locale: what `std::isspace` accepts. -/
def isspace (c : Char) : Bool :=
  c == ' ' || c == '\t' || c == '\n' || c == '\x0b' || c == '\x0c' || c == '\r'

/-- A `std::istream`: the characters not yet read, and the state bits. -/
structure istream where
  buf : std_string
  eofbit : Bool
  failbit : Bool
deriving DecidableEq, Repr

/-- The member `good()`: no state bit is set. -/
def istream.good (is : istream) : Bool := !is.eofbit && !is.failbit

/-- The conversion of a stream to `bool`, that is `!fail()`. -/
def istream.ok (is : istream) : Bool := !is.failbit

/-- A `std::stringstream` freshly constructed over the string `s`. -/
def stringstream (s : std_string) : istream :=
  { buf := s, eofbit := false, failbit := false }

/-- The call `std::getline(is, l)`.  A stream that is not good only gets its
failbit set and `l` is left alone.  Otherwise characters are taken up to and
including the first newline, which is dropped; running into the end of the
input sets eofbit, and also failbit when nothing at all was taken. -/
def std_getline (is : istream) (l : std_string) : istream × std_string :=
  if !is.good then ({ is with failbit := true }, l)
  else
    let line := is.buf.takeWhile (fun c => c != '\n')
    match is.buf.dropWhile (fun c => c != '\n') with
    | [] => ({ buf := [], eofbit := true, failbit := line.isEmpty }, line)
    | _ :: rest => ({ is with buf := rest }, line)

/-- The formatted extraction `is >> s` of a string.  A stream that is not
good only gets its failbit set.  Otherwise leading whitespace is skipped; at
the end of the input eofbit and failbit are set and `s` is left alone; else
`s` becomes the run of characters up to the next whitespace, and eofbit is set
when that run reaches the end of the input. -/
def istream.extract (is : istream) (s : std_string) : istream × std_string :=
  if !is.good then ({ is with failbit := true }, s)
  else
    match is.buf.dropWhile isspace with
    | [] => ({ buf := [], eofbit := true, failbit := true }, s)
    | c :: cs =>
      let rest := (c :: cs).dropWhile (fun x => !isspace x)
      ({ buf := rest, eofbit := rest.isEmpty, failbit := false },
        (c :: cs).takeWhile (fun x => !isspace x))

/-- A `std::ostream`: the characters written so far, and whether a state bit
is set. -/
structure ostream where
  written : std_string
  failbit : Bool
deriving DecidableEq, Repr

/-- The insertion `os << in.rdbuf()`, where `data` is what the buffer of `in`
still holds.  A stream that is not good writes nothing; inserting no character
at all sets failbit. -/
def ostream.insert_rdbuf (os : ostream) (data : std_string) : ostream :=
  if os.failbit then os
  else if data.isEmpty then { os with failbit := true }
  else { os with written := os.written ++ data }

/-- One operation on the streams of a client: an extraction of characters
from its input (with the characters that left the input), or an insertion into
its output (with the characters offered). -/
inductive io_event where
  | read (chars : std_string)
  | write (chars : std_string)
deriving DecidableEq, Repr

/-- Whether the operation is an extraction from the input. -/
def io_event.is_read : io_event → Bool
  | io_event.read _ => true
  | io_event.write _ => false

/-- The characters that the operation took from the input. -/
def io_event.consumed : io_event → std_string
  | io_event.read chars => chars
  | io_event.write _ => []

/-- The struct `xclient_t`: an input and an output stream.  The field `trace`
is not in the C++ struct: it is the history of the operations made on the two
streams through this client, oldest first, which the streams themselves do not
record and which claims about the order of reading and writing need. -/
structure xclient_t where
  in_ : istream
  out_ : ostream
  trace : List io_event
deriving DecidableEq, Repr

/-- The typedef `client_t`. -/
abbrev client_t := xclient_t

/-- The function `write`: inserts the buffer of `in` into the output of the
client and returns 42. -/
def write (client : xclient_t) (data : std_string) : xclient_t × Nat :=
  ({ client with
      out_ := client.out_.insert_rdbuf data
      trace := client.trace ++ [io_event.write data] }, 42)

/-- The function `http::getline`: reads one line and turns a line that is a
lone carriage return into the empty line. -/
def http.getline (c : xclient_t) (_s : std_string) : xclient_t × std_string :=
  let l : std_string := []
  let (is, l) := std_getline c.in_ l
  let l := if l = ['\r'] then [] else l
  ({ c with
      in_ := is
      trace := c.trace ++ [io_event.read (c.in_.buf.take (c.in_.buf.length - is.buf.length))] },
    l)

/-! ## Regular expressions

The program matches tokens with `boost::regex`, always compiled with the flags
`perl | icase`.  The embedding covers the part of the Perl syntax that the
three patterns of the program are written in: literal characters, escaped
punctuation, the class `\w`, bracket expressions made of single characters and
`\w`, and the postfix operators `+` and `*`.  Whether the whole of a string
matches an expression does not depend on the strategy of the matcher; the
embedding decides it by derivatives. -/

/-- An element of a bracket expression: one character, or the class `\w`. -/
inductive set_item where
  | single (c : Char)
  | word
deriving DecidableEq, Repr

/-- A compiled expression, the typedef `re`.  `never` and `alt` are not
written by the compiler below; they arise while matching. -/
inductive re where
  | never
  | eps
  | literal (c : Char)
  | set (items : List set_item)
  | cat (a b : re)
  | alt (a b : re)
  | star (a : re)
deriving DecidableEq, Repr

/-- Case folding of the classic locale, as `icase` applies it to the
characters of the expression and of the input alike. -/
def translate_nocase (c : Char) : Char := c.toLower

/-- The class `\w` in the classic locale: a letter, a digit or an underscore. -/
def is_word (c : Char) : Bool := c.isAlphanum || c == '_'

/-- Whether an element of a bracket expression accepts the character `c`. -/
def set_item.accepts : set_item → Char → Bool
  | set_item.single s, c => translate_nocase c == translate_nocase s
  | set_item.word, c => is_word c

/-- Whether the expression matches the empty string. -/
def re.nullable : re → Bool
  | re.never => false
  | re.eps => true
  | re.literal _ => false
  | re.set _ => false
  | re.cat a b => a.nullable && b.nullable
  | re.alt a b => a.nullable || b.nullable
  | re.star _ => true

/-- What is left of the expression once it has read the character `c`. -/
def re.deriv : re → Char → re
  | re.never, _ => re.never
  | re.eps, _ => re.never
  | re.literal l, c => if translate_nocase c == translate_nocase l then re.eps else re.never
  | re.set items, c => if items.any (fun i => i.accepts c) then re.eps else re.never
  | re.cat a b, c =>
    if a.nullable then re.alt (re.cat (a.deriv c) b) (b.deriv c) else re.cat (a.deriv c) b
  | re.alt a b, c => re.alt (a.deriv c) (b.deriv c)
  | re.star a, c => re.cat (a.deriv c) (re.star a)

/-- The call `regex_match(s, e)`: whether `e` matches the whole of `s`. -/
def regex_match : std_string → re → Bool
  | [], e => e.nullable
  | c :: cs, e => regex_match cs (e.deriv c)

/-- Characters with a meaning of their own in the Perl syntax that the
embedding does not cover (`\x7b` and `\x7d` are the braces). -/
def unsupported_special : List Char :=
  ['.', '(', ')', '|', '?', '^', '$', '+', '*', ']', '\x7b', '\x7d']

/-- The compiler of expressions.  The first argument is `none` outside a
bracket expression and holds the items read so far (latest first) inside one;
the second holds the atoms read so far (latest first).  The result is `none`
for an expression outside the covered syntax. -/
def compile : Option (List set_item) → List re → List Char → Option (List re)
  | none, acc, [] => some acc.reverse
  | none, acc, '\\' :: 'w' :: rest => compile none (re.set [set_item.word] :: acc) rest
  | none, acc, '\\' :: c :: rest =>
    if c.isAlphanum then none else compile none (re.literal c :: acc) rest
  | none, _, ['\\'] => none
  | none, acc, '[' :: rest => compile (some []) acc rest
  | none, a :: acc, '+' :: rest => compile none (re.cat a (re.star a) :: acc) rest
  | none, a :: acc, '*' :: rest => compile none (re.star a :: acc) rest
  | none, acc, c :: rest =>
    if c ∈ unsupported_special then none else compile none (re.literal c :: acc) rest
  | some _, _, [] => none
  | some items, acc, ']' :: rest =>
    if items = [] then none else compile none (re.set items.reverse :: acc) rest
  | some items, acc, '\\' :: 'w' :: rest => compile (some (set_item.word :: items)) acc rest
  | some items, acc, '\\' :: c :: rest =>
    if c.isAlphanum then none else compile (some (set_item.single c :: items)) acc rest
  | some _, _, ['\\'] => none
  | some items, acc, '-' :: rest =>
    if items = [] then compile (some [set_item.single '-']) acc rest else none
  | some items, acc, c :: rest =>
    if c = '[' ∨ c = '^' then none else compile (some (set_item.single c :: items)) acc rest

/-- The function `mkre`: compiles an expression with the flags `perl | icase`.
`none` stands for the exception that `boost::regex` throws for an expression
it cannot compile (here: one outside the covered syntax). -/
def mkre (e : std_string) : Option re :=
  (compile none [] e).map (fun atoms => atoms.foldr re.cat re.eps)

/-- The function `matches`: whether the whole of `s` matches the expression
`sex`. -/
def «matches» (s : std_string) (sex : String) : Bool :=
  match mkre sex.toList with
  | some e => regex_match s e
  | none => false

/-! ## The collaborators: filesystem, clock, date facet -/

/-- The typedef `maybe_path`: an optional `fs::path`, a path being kept as
the string it was built from. -/
abbrev maybe_path := Option std_string

/-- The typedef `cmd_rv_t`: a status code (an `unsigned short`) and an
optional path. -/
abbrev cmd_rv_t := Nat × maybe_path

/-- The enumeration `fs::file_type`. -/
inductive file_type where
  | status_error
  | file_not_found
  | regular_file
  | directory_file
  | symlink_file
  | block_file
  | character_file
  | fifo_file
  | socket_file
  | type_unknown
deriving DecidableEq, Repr

/-- A `fs::filesystem_error`: the exception that a query of
`boost::filesystem` throws, with the error number of the system call. -/
structure filesystem_error where
  errno : Nat
deriving DecidableEq, Repr

/-- The error number `ENOENT`: no such file or directory. -/
def ENOENT : Nat := 2

/-- The error number `ENOTDIR`: a component of the path is not a directory. -/
def ENOTDIR : Nat := 20

/-- The error number `ENAMETOOLONG`: a component of the path is longer than
the filesystem allows; no file of that name exists. -/
def ENAMETOOLONG : Nat := 36

/-- The filesystem: what the system call `stat` answers for a path, the type
of the file and its time of last write (a `time_t`) or an error number; and
the characters that an `fs::ifstream` opened on the path delivers (none when
it cannot be opened). -/
structure filesystem where
  stat : std_string → Except Nat (file_type × Int)
  ifstream : std_string → std_string

/-- The query `fs::status(p)`: the type of the file; `file_not_found` when
`stat` fails with `ENOENT` or `ENOTDIR`; an exception when it fails with any
other error. -/
def fs_status (fsys : filesystem) (p : std_string) : Except filesystem_error file_type :=
  match fsys.stat p with
  | .ok (t, _) => .ok t
  | .error e =>
    if e = ENOENT ∨ e = ENOTDIR then .ok file_type.file_not_found
    else .error { errno := e }

/-- The query `fs::exists(p)`: whether the status is neither `status_error`
nor `file_not_found`; throws when `fs::status(p)` does. -/
def fs_exists (fsys : filesystem) (p : std_string) : Except filesystem_error Bool :=
  (fs_status fsys p).map
    (fun t => t != file_type.status_error && t != file_type.file_not_found)

/-- The query `fs::is_regular_file(p)`; throws when `fs::status(p)` does. -/
def fs_is_regular_file (fsys : filesystem) (p : std_string) : Except filesystem_error Bool :=
  (fs_status fsys p).map (fun t => t == file_type.regular_file)

/-- The query `fs::last_write_time(p)`: throws when `stat` fails, whatever the
error. -/
def fs_last_write_time (fsys : filesystem) (p : std_string) : Except filesystem_error Int :=
  match fsys.stat p with
  | .ok (_, mtime) => .ok mtime
  | .error e => .error { errno := e }

/-- A `ti::ptime`, kept as the seconds since the epoch. -/
structure ptime where
  seconds : Int
deriving DecidableEq, Repr

/-- The call `ti::from_time_t`. -/
def from_time_t (t : Int) : ptime := { seconds := t }

/-- The clock and the date facet: `ti::second_clock::universal_time()`, and
what inserting a `ptime` into a stream imbued with a `ti::time_facet` of the
given format writes. -/
structure platform where
  universal_time : ptime
  time_put : std_string → ptime → std_string

/-- The operator `/` of `fs::path` on a POSIX system: nothing is appended for
an empty right side; a separator is put in between unless the left side is
empty or ends in one, or the right side starts with one. -/
def path_append (p q : std_string) : std_string :=
  if q.isEmpty then p
  else if q.head? = some '/' then p ++ q
  else if p.isEmpty || p.getLast? == some '/' then p ++ q
  else p ++ '/' :: q

/-- The member `substr(pos)` of a string, for `pos` within the string (the
program calls it with `pos = 1` on a string that starts with a slash). -/
def substr (s : std_string) (pos : Nat) : std_string := s.drop pos

/-! ## The status registry -/

/-- A `std::map<int, std::string>`: its entries in ascending order of key. -/
abbrev status_map := List (Int × std_string)

/-- The global `status`, as initialised. -/
def status : status_map :=
  [ (200, "Ok".toList)
  , (400, "Bad Request".toList)
  , (404, "Not Found".toList)
  , (500, "Internal Server Error".toList)
  , (501, "Not Implemented".toList)
  , (505, "HTTP Version Not Supported".toList) ]

/-- Insertion of a key with an empty string at its place in the order. -/
def status_map.insert_empty : status_map → Int → status_map
  | [], k => [(k, [])]
  | (k0, v) :: m, k => if k < k0 then (k, []) :: (k0, v) :: m else (k0, v) :: insert_empty m k

/-- The operator `[]` of the map: the string stored under the key; a key that
is not there is first inserted with an empty string. -/
def status_map.index (m : status_map) (k : Int) : std_string × status_map :=
  match m.lookup k with
  | some v => (v, m)
  | none => ([], m.insert_empty k)

/-! ## The program -/

/-- The function `torfc1123`. -/
def torfc1123 (pf : platform) (t : ptime) : std_string :=
  pf.time_put "%a, %d %b %Y %T GMT".toList t

/-- The function `request_date`. -/
def request_date (pf : platform) : std_string :=
  torfc1123 pf pf.universal_time

/-- The insertion of an `int` into a stream: its decimal digits, after a
minus sign when negative. -/
def format_int (n : Int) : std_string :=
  if n < 0 then '-' :: Nat.toDigits 10 n.natAbs else Nat.toDigits 10 n.toNat

/-- The function `report_status`: returns the status table and the client as
it leaves them. -/
def report_status (pf : platform) (st : status_map) (client : client_t) (code : Int) :
    status_map × client_t :=
  let (reason, st) := st.index code
  let os : std_string :=
    "HTTP/1.0 ".toList ++ format_int code ++ " ".toList ++ reason ++ "\r\n".toList
      ++ "Date: ".toList ++ request_date pf ++ "\r\n".toList
      ++ "Connection: close".toList ++ "\r\n".toList
  (st, (write client os).1)

/-- The function `mkstatus`: the `int` code is narrowed to `unsigned short`. -/
def mkstatus (code : Int) (path : maybe_path) : cmd_rv_t :=
  ((code % 65536).toNat, path)

/-- The function `process_command`: returns the outcome, or the exception that
a filesystem query threw, and the client as it leaves it.  In the condition
`!fs::exists(path) || !fs::is_regular_file(path)` the second query is made
only when the first answers true. -/
def process_command (fsys : filesystem) (client : client_t) (docroot : maybe_path) :
    Except filesystem_error cmd_rv_t × client_t :=
  let r : std_string := []
  let (client, r) := http.getline client r
  let none_ : maybe_path := none
  match docroot with
  | none => (.ok (mkstatus 500 none_), client)
  | some root =>
    let method := "INVALID".toList
    let path := "INVALID".toList
    let proto := "INVALID".toList
    let rs := stringstream r
    let (rs, method) := rs.extract method
    if !rs.ok || !«matches» method "GET" then (.ok (mkstatus 501 none_), client)
    else
      let (rs, path) := rs.extract path
      if !rs.ok || !«matches» path "/[-.\\w]+" || "/..".toList == path then
        (.ok (mkstatus 400 none_), client)
      else
        let (rs, proto) := rs.extract proto
        if !rs.ok || !«matches» proto "HTTP/1\\.[01]" then (.ok (mkstatus 505 none_), client)
        else
          let path := path_append root (substr path 1)
          match fs_exists fsys path with
          | .error e => (.error e, client)
          | .ok false => (.ok (mkstatus 404 none_), client)
          | .ok true =>
            match fs_is_regular_file fsys path with
            | .error e => (.error e, client)
            | .ok false => (.ok (mkstatus 404 none_), client)
            | .ok true => (.ok (mkstatus 200 (some path)), client)

/-- The loop of `consume_request`, with a bound on the number of lines it may
read; `none` when the bound is reached before the loop ends. -/
def consume_request_loop : Nat → client_t → Option client_t
  | 0, _ => none
  | fuel + 1, client =>
    let (client, l) := http.getline client []
    if client.in_.ok && !l.isEmpty then consume_request_loop fuel client else some client

/-- The function `consume_request`.  The bound given to the loop is more than
the number of lines the input can hold. -/
def consume_request (client : client_t) : Option client_t :=
  consume_request_loop (client.in_.buf.length + 2) client

/-- The function `send_file`: returns its result, or the exception that
`fs::last_write_time` threw while the headers were being put together (nothing
is written then), and the client as it leaves it. -/
def send_file (pf : platform) (fsys : filesystem) (client : client_t) (path : maybe_path) :
    Except filesystem_error Bool × client_t :=
  match path with
  | none => (.ok false, client)
  | some p =>
    match fs_last_write_time fsys p with
    | .error e => (.error e, client)
    | .ok mtime =>
      let oheaders : std_string :=
        "Last-Modified: ".toList ++ torfc1123 pf (from_time_t mtime)
          ++ "\r\n".toList
          ++ "Content-Type: application/octet-stream".toList ++ "\r\n".toList
          ++ "\r\n".toList
      let (client, n) := write client oheaders
      if n == 0 then (.ok false, client)
      else
        let (client, _) := write client (fsys.ifstream p)
        (.ok true, client)

/-- The function `serve`: returns its result, or the exception that left it,
and the client and the status table as it leaves them; `none` only if the loop
of `consume_request` did not end within its bound.  An exception thrown by
`process_command` leaves `serve` at once: the calls after it are not made. -/
def serve (pf : platform) (fsys : filesystem) (st : status_map) (client : client_t)
    (docroot : maybe_path) : Option (Except filesystem_error Bool × client_t × status_map) :=
  let (rv, client) := process_command fsys client docroot
  match rv with
  | .error e => some (.error e, client, st)
  | .ok rv =>
    let rstatus : Int := rv.1
    let path := rv.2
    match consume_request client with
    | none => none
    | some client =>
      let (st, client) := report_status pf st client rstatus
      let (sent, client) := send_file pf fsys client path
      some (sent, client, st)

/-- The streams `std::cin` and `std::cout` at the start of the process, with
`input` waiting on the standard input. -/
def stdio (input : std_string) : client_t :=
  { in_ := { buf := input, eofbit := false, failbit := false }
    out_ := { written := [], failbit := false }
    trace := [] }

/-- The whitespace-delimited tokens of a line: its maximal runs of characters
that are not whitespace. -/
def words (line : std_string) : List std_string :=
  (line.splitOnP isspace).filter (fun w => !w.isEmpty)

/-- The request line that a stream holds: its characters up to the first
newline; a stream that is at its end or has failed delivers no character. -/
def request_line (is : istream) : std_string :=
  if is.good then is.buf.takeWhile (fun c => c != '\n') else []

/-- The token number `n` (from 0) of the request line that a client sends. -/
def token (n : Nat) (client : client_t) : Option std_string :=
  (words (request_line client.in_))[n]?

/-- Equality of two strings up to the case of letters. -/
def iequal (a b : std_string) : Bool :=
  a.map Char.toLower == b.map Char.toLower

/-- A letter, a digit, an underscore, a hyphen or a dot. -/
def name_char (c : Char) : Bool :=
  c.isAlpha || c.isDigit || c == '_' || c == '-' || c == '.'

/-- The path grammar: a slash followed by one or more letters, digits,
underscores, hyphens and dots. -/
def path_grammar : std_string → Bool
  | [] => false
  | c :: name => c == '/' && !name.isEmpty && name.all name_char

/-- A protocol token: `HTTP/1.0` or `HTTP/1.1`, in any case of letters. -/
def protocol_grammar (v : std_string) : Bool :=
  iequal v "HTTP/1.0".toList || iequal v "HTTP/1.1".toList

/-- The lines of an input: the pieces that its newlines separate.  The last
piece is what follows the last newline (nothing, when the input ends in one). -/
def lines (input : std_string) : List std_string :=
  input.splitOn '\n'

/-- The inverse of `lines`: the pieces put together again, a newline between
every two of them. -/
def unlines (ls : List std_string) : std_string :=
  ['\n'].intercalate ls

/-- A line that is empty or a lone carriage return. -/
def blank (l : std_string) : Bool :=
  l.isEmpty || l == ['\r']

/-- The lines that follow the first blank one; none when no line is blank. -/
def after_blank (ls : List std_string) : List std_string :=
  (ls.dropWhile (fun l => !blank l)).drop 1

/-- What a request leaves unread on a stream: of the lines after the request
line, those after the first blank one.  A stream that is at its end or has
failed gives up no character, so all it holds stays unread. -/
def unread (is : istream) : std_string :=
  if is.good then unlines (after_blank ((lines is.buf).drop 1)) else is.buf

/-! ## Auxiliary forms of the program -/

/-- The last check of `process_command`, on the path it has put together:
the condition `!fs::exists(path) || !fs::is_regular_file(path)` and the two
returns that hang on it. -/
def file_check (fsys : filesystem) (path : std_string) : Except filesystem_error cmd_rv_t :=
  match fs_exists fsys path with
  | .error e => .error e
  | .ok false => .ok (mkstatus 404 none)
  | .ok true =>
    match fs_is_regular_file fsys path with
    | .error e => .error e
    | .ok false => .ok (mkstatus 404 none)
    | .ok true => .ok (mkstatus 200 (some path))

/-- The checks that `process_command` makes once the document root is known
to be `root`, as a function of the tokens of the request line. -/
def outcome_of_tokens (fsys : filesystem) (root : std_string) :
    List std_string → Except filesystem_error cmd_rv_t
  | [] => .ok (mkstatus 501 none)
  | method :: rest =>
    if !«matches» method "GET" then .ok (mkstatus 501 none)
    else
      match rest with
      | [] => .ok (mkstatus 400 none)
      | path :: rest =>
        if !«matches» path "/[-.\\w]+" || "/..".toList == path then .ok (mkstatus 400 none)
        else
          match rest with
          | [] => .ok (mkstatus 505 none)
          | proto :: _ =>
            if !«matches» proto "HTTP/1\\.[01]" then .ok (mkstatus 505 none)
            else
              file_check fsys (path_append root (substr path 1))

/-- A bound on the number of calls of `std::getline` that a stream still
answers without failing. -/
def lines_left (is : istream) : Nat :=
  if is.good then is.buf.length + 2 else 1

/-! ## A sample environment for the worked examples -/

/-- A filesystem that holds the directory `/srv` and in it one regular file,
`/srv/index.html`, with the content `hi`, last written one day after the
epoch.  As on a filesystem whose names are at most 255 characters long, `stat`
fails with `ENAMETOOLONG` for a path longer than that (every path used here has
a single long component, if any); for every other path that names nothing it
fails with `ENOENT`. -/
def sample_fs : filesystem :=
  { stat := fun p =>
      if p == "/srv".toList || p == "/srv/.".toList then .ok (file_type.directory_file, 0)
      else if p == "/srv/index.html".toList then .ok (file_type.regular_file, 86400)
      else if 255 < p.length then .error ENAMETOOLONG
      else .error ENOENT
    ifstream := fun p => if p == "/srv/index.html".toList then "hi".toList else [] }

/-- A name of 256 characters, one more than a filesystem name may have. -/
def long_name : std_string := List.replicate 256 'a'

/-- A well-formed request for the file of that name, followed by one header,
the empty line and a body. -/
def long_request : std_string :=
  "GET /".toList ++ long_name ++ " HTTP/1.0\r\nHost: example\r\n\r\nBODY".toList

/-- A clock that stands at the epoch and a facet that prints the day of the
instant it is given, for the two instants the examples use. -/
def sample_platform : platform :=
  { universal_time := { seconds := 0 }
    time_put := fun _ t =>
      if t.seconds < 86400 then "Thu, 01 Jan 1970 00:00:00 GMT".toList
      else "Fri, 02 Jan 1970 00:00:00 GMT".toList }

/-! ## Facts about the matcher -/

theorem regex_match_never (s : std_string) : regex_match s re.never = false := by
  induction s with
  | nil => rfl
  | cons c cs ih => simpa [regex_match, re.deriv] using ih

theorem regex_match_alt (s : std_string) (a b : re) :
    regex_match s (re.alt a b) = (regex_match s a || regex_match s b) := by
  induction s generalizing a b with
  | nil => rfl
  | cons c cs ih => simp [regex_match, re.deriv, ih]

theorem regex_match_cat_never (s : std_string) (e : re) :
    regex_match s (re.cat re.never e) = false := by
  induction s with
  | nil => rfl
  | cons c cs ih => simpa [regex_match, re.deriv, re.nullable] using ih

theorem regex_match_cat_eps (s : std_string) (e : re) :
    regex_match s (re.cat re.eps e) = regex_match s e := by
  cases s with
  | nil => simp [regex_match, re.nullable]
  | cons c cs =>
    simp [regex_match, re.deriv, re.nullable, regex_match_alt, regex_match_cat_never]

theorem regex_match_eps (s : std_string) : regex_match s re.eps = s.isEmpty := by
  cases s with
  | nil => rfl
  | cons c cs => simp [regex_match, re.deriv, regex_match_never]

theorem regex_match_cat_literal_cons (c : Char) (s : std_string) (l : Char) (e : re) :
    regex_match (c :: s) (re.cat (re.literal l) e)
      = (translate_nocase c == translate_nocase l && regex_match s e) := by
  by_cases h : translate_nocase c = translate_nocase l
  · simp [regex_match, re.deriv, re.nullable, h, regex_match_cat_eps]
  · simp [regex_match, re.deriv, re.nullable, h, regex_match_cat_never]

theorem regex_match_cat_set_cons (c : Char) (s : std_string) (items : List set_item) (e : re) :
    regex_match (c :: s) (re.cat (re.set items) e)
      = (items.any (fun i => i.accepts c) && regex_match s e) := by
  by_cases h : items.any (fun i => i.accepts c) = true
  · simp only [regex_match, re.deriv, re.nullable, h, regex_match_cat_eps, ↓reduceIte,
      Bool.false_eq_true, Bool.true_and]
  · simp only [Bool.not_eq_true] at h
    simp only [regex_match, re.deriv, re.nullable, h, regex_match_cat_never, ↓reduceIte,
      Bool.false_eq_true, Bool.false_and]

theorem regex_match_star_set (s : std_string) (items : List set_item) :
    regex_match s (re.star (re.set items))
      = s.all (fun c => items.any (fun i => i.accepts c)) := by
  induction s with
  | nil => rfl
  | cons c cs ih =>
    by_cases h : items.any (fun i => i.accepts c) = true
    · simp only [regex_match, re.deriv, h, regex_match_cat_eps, List.all_cons, ↓reduceIte,
        Bool.true_and, ih]
    · simp only [Bool.not_eq_true] at h
      simp only [regex_match, re.deriv, h, regex_match_cat_never, List.all_cons, ↓reduceIte,
        Bool.false_eq_true, Bool.false_and]

theorem regex_match_cat_eps_right (s : std_string) (e : re) :
    regex_match s (re.cat e re.eps) = regex_match s e := by
  induction s generalizing e with
  | nil => simp [regex_match, re.nullable]
  | cons c cs ih =>
    by_cases h : e.nullable = true
    · simp [regex_match, re.deriv, h, regex_match_alt, regex_match_never, ih]
    · simp [regex_match, re.deriv, h, ih]

theorem mkre_method : mkre "GET".toList
    = some (re.cat (re.literal 'G') (re.cat (re.literal 'E') (re.cat (re.literal 'T') re.eps))) :=
  rfl

theorem mkre_path : mkre "/[-.\\w]+".toList
    = some (re.cat (re.literal '/')
        (re.cat (re.cat (re.set [set_item.single '-', set_item.single '.', set_item.word])
          (re.star (re.set [set_item.single '-', set_item.single '.', set_item.word])))
          re.eps)) :=
  rfl

theorem mkre_proto : mkre "HTTP/1\\.[01]".toList
    = some (re.cat (re.literal 'H') (re.cat (re.literal 'T') (re.cat (re.literal 'T')
        (re.cat (re.literal 'P') (re.cat (re.literal '/') (re.cat (re.literal '1')
          (re.cat (re.literal '.')
            (re.cat (re.set [set_item.single '0', set_item.single '1']) re.eps)))))))) :=
  rfl

/-! ## The three patterns -/

theorem isUpper_iff (c : Char) : c.isUpper = true ↔ 65 ≤ c.toNat ∧ c.toNat ≤ 90 := by
  simp [Char.isUpper, Char.toNat, UInt32.le_def, Fin.le_def]
  rfl

theorem toLower_of_not_isUpper (c : Char) (h : c.isUpper = false) : c.toLower = c := by
  have h1 : ¬ (65 ≤ c.toNat ∧ c.toNat ≤ 90) := by
    rw [← isUpper_iff]; simp [h]
  unfold Char.toLower
  simp only [ge_iff_le]
  rw [if_neg h1]

theorem toLower_isLower_of_isUpper (c : Char) (h : c.isUpper = true) :
    c.toLower.isLower = true := by
  have key : ∀ n, n < 91 → 65 ≤ n → (Char.ofNat (n + 32)).isLower = true := by decide
  have h1 := (isUpper_iff c).1 h
  unfold Char.toLower
  simp only [ge_iff_le]
  rw [if_pos h1]
  exact key _ (by omega) h1.1

/-- Case folding does not identify a character that is not a letter with any
other character. -/
theorem toLower_beq_of_not_isAlpha (c p : Char) (hp : p.isAlpha = false) :
    (translate_nocase c == translate_nocase p) = (c == p) := by
  have hpu : p.isUpper = false := by
    simp only [Char.isAlpha, Bool.or_eq_false_iff] at hp; exact hp.1
  have hpl : p.isLower = false := by
    simp only [Char.isAlpha, Bool.or_eq_false_iff] at hp; exact hp.2
  unfold translate_nocase
  rw [toLower_of_not_isUpper p hpu]
  cases hc : c.isUpper
  · rw [toLower_of_not_isUpper c hc]
  · have h1 := toLower_isLower_of_isUpper c hc
    have h2 : c.toLower ≠ p := by
      intro e; rw [e, hpl] at h1; exact Bool.false_ne_true h1
    have h3 : c ≠ p := by
      intro e; rw [e, hpu] at hc; exact Bool.false_ne_true hc
    simp [h2, h3]

theorem regex_match_set (s : std_string) (items : List set_item) :
    regex_match s (re.set items)
      = (match s with
        | [c] => items.any (fun i => i.accepts c)
        | _ => false) := by
  rw [← regex_match_cat_eps_right]
  cases s with
  | nil => rfl
  | cons c cs =>
    rw [regex_match_cat_set_cons, regex_match_eps]
    cases cs <;> simp

theorem regex_match_nil (e : re) : regex_match [] e = e.nullable := rfl

/-- The method pattern accepts exactly `GET` up to the case of letters. -/
theorem matches_method (s : std_string) : «matches» s "GET" = iequal s "GET".toList := by
  unfold «matches»
  rw [mkre_method]
  rcases s with _ | ⟨a, _ | ⟨b, _ | ⟨c, _ | ⟨d, t⟩⟩⟩⟩ <;>
    simp [regex_match_cat_literal_cons, regex_match_eps, iequal, translate_nocase,
      regex_match_nil, re.nullable]

/-- The protocol pattern accepts exactly `HTTP/1.0` and `HTTP/1.1` up to the
case of letters. -/
theorem matches_proto (s : std_string) :
    «matches» s "HTTP/1\\.[01]" = protocol_grammar s := by
  unfold «matches»
  rw [mkre_proto]
  rcases s with _ | ⟨a, _ | ⟨b, _ | ⟨c, _ | ⟨d, _ | ⟨e, _ | ⟨f, _ | ⟨g, _ | ⟨h, _ | ⟨i, t⟩⟩⟩⟩⟩⟩⟩⟩⟩ <;>
    simp [regex_match_cat_literal_cons, regex_match_eps, iequal, translate_nocase,
      regex_match_nil, re.nullable, regex_match_cat_set_cons, set_item.accepts, protocol_grammar]
  simp only [Bool.and_or_distrib_left]

theorem accepts_name_char (c : Char) :
    [set_item.single '-', set_item.single '.', set_item.word].any (fun i => i.accepts c)
      = name_char c := by
  simp only [List.any_cons, List.any_nil, set_item.accepts, Bool.or_false, is_word, name_char,
    Char.isAlphanum]
  rw [toLower_beq_of_not_isAlpha c '-' (by decide), toLower_beq_of_not_isAlpha c '.' (by decide)]
  cases c.isAlpha <;> cases c.isDigit <;> cases (c == '_') <;> cases (c == '-') <;>
    cases (c == '.') <;> rfl

/-- The path pattern accepts exactly the strings of the path grammar. -/
theorem matches_path (s : std_string) : «matches» s "/[-.\\w]+" = path_grammar s := by
  unfold «matches»
  rw [mkre_path]
  rcases s with _ | ⟨a, _ | ⟨b, t⟩⟩
  · rfl
  · simp [regex_match_cat_literal_cons, regex_match_nil, re.nullable, path_grammar]
  · show regex_match (a :: b :: t) _ = _
    rw [regex_match_cat_literal_cons, regex_match_cat_eps_right, regex_match_cat_set_cons,
      regex_match_star_set, toLower_beq_of_not_isAlpha a '/' (by decide)]
    simp only [accepts_name_char]
    simp [path_grammar]

/-! ## Tokens and extraction -/

theorem splitOnP_unfold (p : Char → Bool) (l : std_string) :
    l.splitOnP p = l.takeWhile (fun x => !p x) ::
      (match l.dropWhile (fun x => !p x) with
        | [] => []
        | _ :: r => r.splitOnP p) := by
  induction l with
  | nil => rfl
  | cons x xs ih =>
    rw [List.splitOnP_cons]
    by_cases h : p x = true
    · simp [h, List.takeWhile, List.dropWhile]
    · simp only [Bool.not_eq_true] at h
      rw [ih]
      simp [h, List.takeWhile, List.dropWhile, List.modifyHead]

theorem words_nil : words [] = [] := rfl

theorem words_cons_space (c : Char) (cs : std_string) (h : isspace c = true) :
    words (c :: cs) = words cs := by
  simp [words, List.splitOnP_cons, h]

theorem words_cons_nonspace (c : Char) (cs : std_string) (h : isspace c = false) :
    words (c :: cs) = (c :: cs).takeWhile (fun x => !isspace x)
      :: words ((c :: cs).dropWhile (fun x => !isspace x)) := by
  have hd : ∀ d r, (c :: cs).dropWhile (fun x => !isspace x) = d :: r → isspace d = true := by
    intro d r e
    have := List.head_dropWhile_not (fun x => !isspace x) (c :: cs) (by rw [e]; simp)
    simpa [e] using this
  unfold words
  rw [splitOnP_unfold]
  cases e : (c :: cs).dropWhile (fun x => !isspace x) with
  | nil => simp [List.takeWhile, h]
  | cons d r =>
    have := hd d r e
    simp [List.takeWhile, h, List.splitOnP_cons, this]

theorem words_unfold (l : std_string) :
    words l = (match l.dropWhile isspace with
      | [] => []
      | c :: cs => (c :: cs).takeWhile (fun x => !isspace x)
          :: words ((c :: cs).dropWhile (fun x => !isspace x))) := by
  induction l with
  | nil => rfl
  | cons x xs ih =>
    cases h : isspace x
    · rw [words_cons_nonspace x xs h]
      simp [List.dropWhile, h]
    · rw [words_cons_space x xs h, ih]
      simp [List.dropWhile, h]

/-- What one extraction does to a string stream that has not failed and that,
when at its end, holds nothing more: it fails when no token is left, and
otherwise delivers the next token and is left with the rest of them. -/
theorem extract_spec (is : istream) (s : std_string) (hf : is.failbit = false)
    (he : is.eofbit = true → is.buf = []) :
    (words is.buf = [] ∧ (is.extract s).1.ok = false) ∨
    (∃ w ws is', words is.buf = w :: ws ∧ is.extract s = (is', w) ∧ is'.failbit = false ∧
      (is'.eofbit = true → is'.buf = []) ∧ words is'.buf = ws) := by
  cases hE : is.eofbit
  · have hg : is.good = true := by simp [istream.good, hE, hf]
    cases hD : is.buf.dropWhile isspace with
    | nil =>
      left
      refine ⟨by rw [words_unfold, hD], ?_⟩
      simp [istream.extract, hg, hD, istream.ok]
    | cons c cs =>
      right
      refine ⟨(c :: cs).takeWhile (fun x => !isspace x),
        words ((c :: cs).dropWhile (fun x => !isspace x)),
        { buf := (c :: cs).dropWhile (fun x => !isspace x),
          eofbit := ((c :: cs).dropWhile (fun x => !isspace x)).isEmpty, failbit := false },
        by rw [words_unfold, hD], by simp [istream.extract, hg, hD], rfl, ?_, rfl⟩
      intro h
      simpa using h
  · left
    have hb := he hE
    refine ⟨by rw [hb]; rfl, ?_⟩
    simp [istream.extract, istream.good, hE, istream.ok]

/-! ## The command processor in terms of tokens -/

theorem words_getline (client : client_t) (s : std_string) :
    words (http.getline client s).2 = words (request_line client.in_) := by
  unfold http.getline std_getline request_line
  cases hg : client.in_.good
  · simp
  · simp only [Bool.not_true, Bool.false_eq_true, ↓reduceIte]
    have key : ∀ l : std_string, words (if l = ['\r'] then [] else l) = words l := by
      intro l
      by_cases h : l = ['\r']
      · rw [if_pos h, h]; rfl
      · rw [if_neg h]
    cases hd : client.in_.buf.dropWhile (fun c => c != '\n') with
    | nil => exact key _
    | cons c cs => exact key _

/-- With a document root, `process_command` extracts the first three tokens of
the request line and decides on them; the client is left as `http::getline`
leaves it. -/
theorem process_command_eq (fsys : filesystem) (client : client_t) (root : std_string) :
    process_command fsys client (some root)
      = (outcome_of_tokens fsys root (words (request_line client.in_)),
          (http.getline client []).1) := by
  rw [← words_getline client []]
  unfold process_command
  simp only []
  generalize http.getline client [] = g
  obtain ⟨client1, r⟩ := g
  simp only []
  generalize "INVALID".toList = inv
  have e0 : words r = words (stringstream r).buf := rfl
  rw [e0]
  generalize hrs : stringstream r = rs0
  have hf0 : rs0.failbit = false := by rw [← hrs]; rfl
  have he0 : rs0.eofbit = true → rs0.buf = [] := by rw [← hrs]; intro h; cases h
  rcases extract_spec rs0 inv hf0 he0 with
    ⟨hw, hfail⟩ | ⟨w1, ws1, rs1, hw, hex, hf1, he1, hws1⟩
  · rw [hw]
    simp [hfail, outcome_of_tokens]
  · rw [hw, hex]
    simp only [outcome_of_tokens, istream.ok, hf1, Bool.not_false, Bool.not_true, Bool.false_or]
    rcases Bool.eq_false_or_eq_true (!«matches» w1 "GET") with hm | hm
    · simp [hm]
    · simp only [hm, Bool.false_eq_true, ↓reduceIte]
      rcases extract_spec rs1 inv hf1 he1 with
        ⟨hw2, hfail2⟩ | ⟨w2, ws2, rs2, hw2, hex2, hf2, he2, hws2⟩
      · rw [← hws1, hw2]
        simp only [istream.ok, Bool.not_eq_eq_eq_not, Bool.not_true] at hfail2
        simp [hfail2]
      · rw [← hws1, hw2, hex2]
        simp only [hf2, Bool.not_false, Bool.not_true, Bool.false_or]
        rcases Bool.eq_false_or_eq_true (!«matches» w2 "/[-.\\w]+" || "/..".toList == w2)
          with hp | hp
        · simp only [hp, Bool.false_eq_true, ↓reduceIte]
        · simp only [hp, Bool.false_eq_true, ↓reduceIte]
          rcases extract_spec rs2 inv hf2 he2 with
            ⟨hw3, hfail3⟩ | ⟨w3, ws3, rs3, hw3, hex3, hf3, he3, hws3⟩
          · rw [← hws2, hw3]
            simp only [istream.ok, Bool.not_eq_eq_eq_not, Bool.not_true] at hfail3
            simp [hfail3]
          · rw [← hws2, hw3, hex3]
            simp only [hf3, Bool.not_false, Bool.not_true, Bool.false_or]
            rcases Bool.eq_false_or_eq_true (!«matches» w3 "HTTP/1\\.[01]") with hv | hv
            · simp [hv]
            · simp only [hv, Bool.false_eq_true, ↓reduceIte]
              unfold file_check
              cases fs_exists fsys (path_append root (substr w2 1)) with
              | error e => rfl
              | ok ex =>
                cases ex with
                | false => rfl
                | true =>
                  cases fs_is_regular_file fsys (path_append root (substr w2 1)) with
                  | error e => rfl
                  | ok rg => cases rg <;> rfl

theorem mkstatus_of_code (c : Nat) (h : c < 65536) (p : maybe_path) :
    mkstatus (c : Int) p = (c, p) := by
  unfold mkstatus
  congr 1
  omega

theorem dots_beq (p : std_string) : ("/..".toList == p) = decide (p = "/..".toList) := by
  by_cases h : p = "/..".toList
  · subst h; rfl
  · rw [decide_eq_false h]
    exact beq_eq_false_iff_ne.2 (fun e => h e.symm)

/-- The checks on the tokens, with the three patterns read as the grammars of
the specification. -/
theorem outcome_of_tokens_spec (fsys : filesystem) (root : std_string) (ws : List std_string) :
    outcome_of_tokens fsys root ws =
      (match ws with
      | [] => .ok (501, none)
      | m :: rest =>
        if iequal m "GET".toList = false then .ok (501, none)
        else
          match rest with
          | [] => .ok (400, none)
          | p :: rest =>
            if path_grammar p = false ∨ p = "/..".toList then .ok (400, none)
            else
              match rest with
              | [] => .ok (505, none)
              | v :: _ =>
                if protocol_grammar v = false then .ok (505, none)
                else file_check fsys (path_append root (p.drop 1))) := by
  have e501 : mkstatus 501 none = (501, none) := mkstatus_of_code 501 (by decide) none
  have e400 : mkstatus 400 none = (400, none) := mkstatus_of_code 400 (by decide) none
  have e505 : mkstatus 505 none = (505, none) := mkstatus_of_code 505 (by decide) none
  unfold outcome_of_tokens
  simp only [e501, e400, e505, matches_method, matches_path, matches_proto, dots_beq, substr]
  rcases ws with _ | ⟨m, _ | ⟨p, _ | ⟨v, t⟩⟩⟩
  · rfl
  · cases iequal m "GET".toList <;> simp
  · cases iequal m "GET".toList <;> cases path_grammar p <;> by_cases h : p = "/..".toList <;>
      simp [h]
  · cases iequal m "GET".toList <;> cases path_grammar p <;> by_cases h : p = "/..".toList <;>
      cases protocol_grammar v <;> simp [h]

/-- The last check in terms of the status of the path: an exception when the
status query throws, 200 for a regular file, 404 for anything else. -/
theorem file_check_eq (fsys : filesystem) (P : std_string) :
    file_check fsys P =
      (match fs_status fsys P with
      | .error e => .error e
      | .ok t => if t = file_type.regular_file then .ok (200, some P) else .ok (404, none)) := by
  unfold file_check fs_exists fs_is_regular_file
  cases fs_status fsys P with
  | error e => rfl
  | ok t => cases t <;> rfl

theorem fs_exists_eq (fsys : filesystem) (P : std_string) :
    fs_exists fsys P = (fs_status fsys P).map
      (fun t => t != file_type.status_error && t != file_type.file_not_found) := rfl

theorem fs_is_regular_file_eq (fsys : filesystem) (P : std_string) :
    fs_is_regular_file fsys P = (fs_status fsys P).map (fun t => t == file_type.regular_file) :=
  rfl

theorem file_check_found (fsys : filesystem) (P : std_string)
    (hexists : fs_exists fsys P = .ok true) (hregular : fs_is_regular_file fsys P = .ok true) :
    file_check fsys P = .ok (200, some P) := by
  unfold file_check
  rw [hexists, hregular]
  rfl

theorem file_check_not_found (fsys : filesystem) (P : std_string)
    (h : fs_exists fsys P = .ok false ∨ fs_is_regular_file fsys P = .ok false) :
    file_check fsys P = .ok (404, none) := by
  rw [file_check_eq]
  rw [fs_exists_eq, fs_is_regular_file_eq] at h
  cases hs : fs_status fsys P with
  | error e => rw [hs] at h; rcases h with h | h <;> cases h
  | ok t =>
    rw [hs] at h
    cases t <;> first | rfl | (rcases h with h | h <;> cases h)

theorem file_check_throws (fsys : filesystem) (P : std_string) (e : filesystem_error)
    (h : fs_exists fsys P = .error e) : file_check fsys P = .error e := by
  unfold file_check
  rw [h]

theorem file_check_cases (fsys : filesystem) (P : std_string) (rv : cmd_rv_t)
    (h : file_check fsys P = .ok rv) :
    rv = (404, none) ∨
      (rv = (200, some P) ∧ fs_exists fsys P = .ok true ∧ fs_is_regular_file fsys P = .ok true) := by
  rw [file_check_eq] at h
  rw [fs_exists_eq, fs_is_regular_file_eq]
  cases hs : fs_status fsys P with
  | error e => rw [hs] at h; cases h
  | ok t =>
    rw [hs] at h
    cases t <;> simp only [reduceCtorEq, ↓reduceIte, Except.ok.injEq] at h <;> subst h <;>
      first | exact Or.inl rfl | exact Or.inr ⟨rfl, rfl, rfl⟩

theorem path_grammar_iff (p : std_string) :
    path_grammar p = true ↔
      ∃ name, p = '/' :: name ∧ name ≠ [] ∧ ∀ c ∈ name, name_char c = true := by
  cases p with
  | nil => simp [path_grammar]
  | cons c name =>
    simp only [path_grammar, Bool.and_eq_true, beq_iff_eq, Bool.not_eq_true', List.isEmpty_eq_false,
      List.all_eq_true, List.cons.injEq, ne_eq]
    constructor
    · rintro ⟨⟨rfl, h1⟩, h2⟩
      exact ⟨name, ⟨rfl, rfl⟩, h1, h2⟩
    · rintro ⟨n, ⟨rfl, rfl⟩, h1, h2⟩
      exact ⟨⟨rfl, h1⟩, h2⟩

theorem path_append_name (root name : std_string) (h0 : name ≠ []) (h1 : '/' ∉ name) :
    path_append root name = root ++ name ∨ path_append root name = root ++ '/' :: name := by
  cases name with
  | nil => exact absurd rfl h0
  | cons c cs =>
    have hc : c ≠ '/' := fun e => h1 (by simp [e])
    unfold path_append
    simp only [List.isEmpty_cons, Bool.false_eq_true, ↓reduceIte, List.head?_cons,
      Option.some.injEq, hc]
    split
    · exact Or.inl rfl
    · exact Or.inr rfl


theorem process_command_no_docroot_aux (fsys : filesystem) (client : client_t) :
    (process_command fsys client none).1 = .ok (500, none) := by
  simp [process_command, mkstatus]

/-- Every outcome that `process_command` returns is status 200 with a path
that the filesystem reports as an existing regular file, or one of the five
other codes of the registry without a path. -/
theorem process_command_cases (fsys : filesystem) (client : client_t) (docroot : maybe_path)
    (rv : cmd_rv_t) (h : (process_command fsys client docroot).1 = .ok rv) :
    (∃ P, rv = (200, some P) ∧ fs_exists fsys P = .ok true ∧
      fs_is_regular_file fsys P = .ok true) ∨
    rv ∈ [((400 : Nat), (none : maybe_path)), (404, none), (500, none), (501, none),
      (505, none)] := by
  cases docroot with
  | none =>
    rw [process_command_no_docroot_aux] at h
    cases h
    simp
  | some root =>
    rw [process_command_eq, outcome_of_tokens_spec] at h
    simp only [] at h
    generalize words (request_line client.in_) = ws at h
    rcases ws with _ | ⟨m, _ | ⟨p, _ | ⟨v, t⟩⟩⟩
    · cases h; simp
    · simp only [] at h
      split_ifs at h <;> cases h <;> simp
    · simp only [] at h
      split_ifs at h <;> cases h <;> simp
    · simp only [] at h
      split_ifs at h
      · cases h; simp
      · cases h; simp
      · cases h; simp
      · rcases file_check_cases fsys _ rv h with h1 | ⟨h1, h2, h3⟩
        · rw [h1]; simp
        · exact Or.inl ⟨_, h1, h2, h3⟩

/-! ## The command processor: which status for which request -/

/-- C1: without a document root `process_command` returns status 500 and no
path, whatever the input stream holds (nothing, garbage, or a well-formed
request). -/
theorem process_command_no_docroot (fsys : filesystem) (client : client_t) :
    (process_command fsys client none).1 = .ok (500, none) :=
  process_command_no_docroot_aux fsys client

/-- C2: with a document root, a request line without a first token, or whose
first token is not `GET` up to the case of letters, gets status 501 and no
path, whatever follows the first token and whatever the filesystem holds. -/
theorem process_command_method_rejected (fsys : filesystem) (client : client_t)
    (root : std_string)
    (h : token 0 client = none ∨
      ∃ m, token 0 client = some m ∧ iequal m "GET".toList = false) :
    (process_command fsys client (some root)).1 = .ok (501, none) := by
  rw [process_command_eq, outcome_of_tokens_spec]
  unfold token at h
  generalize words (request_line client.in_) = ws at h
  rcases ws with _ | ⟨a, t⟩ <;> simp_all

/-- Witness of C2: `POST /index.html HTTP/1.0` gets status 501. -/
theorem process_command_method_rejected_witness :
    (process_command sample_fs (stdio "POST /index.html HTTP/1.0\r\n\r\n".toList)
      (some "/srv".toList)).1 = .ok (501, none) :=
  process_command_method_rejected sample_fs _ _
    (Or.inr ⟨"POST".toList, by decide, by decide⟩)

/-- C3: with a document root and a first token that is `GET` up to the case
of letters, a request line without a second token, or whose second token is
outside the path grammar or is `/..`, gets status 400 and no path, whatever
the protocol token and the filesystem are. -/
theorem process_command_path_rejected (fsys : filesystem) (client : client_t)
    (root m : std_string)
    (hm : token 0 client = some m) (hget : iequal m "GET".toList = true)
    (h : token 1 client = none ∨
      ∃ p, token 1 client = some p ∧ (path_grammar p = false ∨ p = "/..".toList)) :
    (process_command fsys client (some root)).1 = .ok (400, none) := by
  rw [process_command_eq, outcome_of_tokens_spec]
  unfold token at hm h
  generalize words (request_line client.in_) = ws at hm h
  rcases ws with _ | ⟨a, _ | ⟨b, t⟩⟩ <;> simp_all

/-- Witness of C3: `GET /.. HTTP/1.0` gets status 400. -/
theorem process_command_path_rejected_witness :
    (process_command sample_fs (stdio "GET /.. HTTP/1.0\r\n\r\n".toList)
      (some "/srv".toList)).1 = .ok (400, none) :=
  process_command_path_rejected sample_fs _ _ "GET".toList (by decide) (by decide)
    (Or.inr ⟨"/..".toList, by decide, Or.inr rfl⟩)

/-- C4: with a document root, a first token that is `GET` up to the case of
letters and a second token in the path grammar other than `/..`, a request
line without a third token, or whose third token is neither `HTTP/1.0` nor
`HTTP/1.1` up to the case of letters, gets status 505 and no path, whether or
not the requested file exists (no filesystem query is made). -/
theorem process_command_protocol_rejected (fsys : filesystem) (client : client_t)
    (root m p : std_string)
    (hm : token 0 client = some m) (hget : iequal m "GET".toList = true)
    (hp : token 1 client = some p) (hgrammar : path_grammar p = true)
    (hdots : p ≠ "/..".toList)
    (h : token 2 client = none ∨
      ∃ v, token 2 client = some v ∧ protocol_grammar v = false) :
    (process_command fsys client (some root)).1 = .ok (505, none) := by
  rw [process_command_eq, outcome_of_tokens_spec]
  unfold token at hm hp h
  generalize words (request_line client.in_) = ws at hm hp h
  rcases ws with _ | ⟨a, _ | ⟨b, _ | ⟨c, t⟩⟩⟩ <;> simp_all

/-- Witness of C4: `GET /a.txt HTTP/2.0` gets status 505. -/
theorem process_command_protocol_rejected_witness :
    (process_command sample_fs (stdio "GET /a.txt HTTP/2.0\r\n\r\n".toList)
      (some "/srv".toList)).1 = .ok (505, none) :=
  process_command_protocol_rejected sample_fs _ _ "GET".toList "/a.txt".toList
    (by decide) (by decide) (by decide) (by decide) (by decide)
    (Or.inr ⟨"HTTP/2.0".toList, by decide, by decide⟩)

/-- With a document root and three valid tokens, the outcome is that of the
last check on the path put together from the root and the path token. -/
theorem process_command_valid_tokens (fsys : filesystem) (client : client_t)
    (root m p v : std_string)
    (hm : token 0 client = some m) (hget : iequal m "GET".toList = true)
    (hp : token 1 client = some p) (hgrammar : path_grammar p = true)
    (hdots : p ≠ "/..".toList)
    (hv : token 2 client = some v) (hproto : protocol_grammar v = true) :
    (process_command fsys client (some root)).1 = file_check fsys (path_append root (p.drop 1)) := by
  rw [process_command_eq, outcome_of_tokens_spec]
  unfold token at hm hp hv
  generalize words (request_line client.in_) = ws at hm hp hv
  rcases ws with _ | ⟨a, _ | ⟨b, _ | ⟨c, t⟩⟩⟩ <;> simp_all

set_option maxRecDepth 100000 in
/-- Counterexample to C5 as stated: a well-formed request for a file whose
name is longer than the filesystem allows.  No file of that name exists
(`stat` fails with `ENAMETOOLONG`), the three tokens are valid, and yet the
outcome is not `(404, none)`: `fs::exists` throws, and `process_command`
returns nothing. -/
theorem process_command_long_name_throws :
    token 0 (stdio long_request) = some "GET".toList ∧
    token 1 (stdio long_request) = some ('/' :: long_name) ∧
    path_grammar ('/' :: long_name) = true ∧
    token 2 (stdio long_request) = some "HTTP/1.0".toList ∧
    sample_fs.stat (path_append "/srv".toList long_name) = .error ENAMETOOLONG ∧
    (process_command sample_fs (stdio long_request) (some "/srv".toList)).1
      = .error { errno := ENAMETOOLONG } ∧
    (process_command sample_fs (stdio long_request) (some "/srv".toList)).1
      ≠ .ok (404, none) := by
  decide

/-- C5, amended: with a document root and three valid tokens (method, path,
protocol), when the status query answers for the docroot joined with the path
token less its leading slash, and reports that it does not exist or is not a
regular file, the outcome is status 404 and no path; when the query throws
(`stat` failed with an error other than `ENOENT` and `ENOTDIR`),
`process_command` returns no outcome: the exception leaves it. -/
theorem process_command_not_found (fsys : filesystem) (client : client_t)
    (root m p v : std_string)
    (hm : token 0 client = some m) (hget : iequal m "GET".toList = true)
    (hp : token 1 client = some p) (hgrammar : path_grammar p = true)
    (hdots : p ≠ "/..".toList)
    (hv : token 2 client = some v) (hproto : protocol_grammar v = true) :
    ((fs_exists fsys (path_append root (p.drop 1)) = .ok false ∨
        fs_is_regular_file fsys (path_append root (p.drop 1)) = .ok false) →
      (process_command fsys client (some root)).1 = .ok (404, none)) ∧
    (∀ e, fs_exists fsys (path_append root (p.drop 1)) = .error e →
      (process_command fsys client (some root)).1 = .error e) := by
  rw [process_command_valid_tokens fsys client root m p v hm hget hp hgrammar hdots hv hproto]
  exact ⟨file_check_not_found fsys _, file_check_throws fsys _⟩

set_option maxRecDepth 100000 in
/-- Witness of C5, amended: a request for a name that `stat` does not find
and a request for the directory `/srv/.` get status 404; the request for the
name that is too long gets no outcome. -/
theorem process_command_not_found_witness :
    (process_command sample_fs (stdio "GET /missing.html HTTP/1.0\r\n\r\n".toList)
      (some "/srv".toList)).1 = .ok (404, none) ∧
    (fs_exists sample_fs "/srv/.".toList = .ok true ∧
      (process_command sample_fs (stdio "GET /. HTTP/1.0\r\n\r\n".toList)
        (some "/srv".toList)).1 = .ok (404, none)) ∧
    (process_command sample_fs (stdio long_request) (some "/srv".toList)).1
      = .error { errno := ENAMETOOLONG } :=
  ⟨(process_command_not_found sample_fs _ _ "GET".toList "/missing.html".toList
      "HTTP/1.0".toList (by decide) (by decide) (by decide) (by decide) (by decide) (by decide)
      (by decide)).1 (Or.inl (by decide)),
    ⟨by decide,
      (process_command_not_found sample_fs _ _ "GET".toList "/.".toList "HTTP/1.0".toList
        (by decide) (by decide) (by decide) (by decide) (by decide) (by decide) (by decide)).1
        (Or.inr (by decide))⟩,
    (process_command_not_found sample_fs (stdio long_request) "/srv".toList "GET".toList
      ('/' :: long_name) "HTTP/1.0".toList
      (by decide) (by decide) (by decide) (by decide) (by decide) (by decide) (by decide)).2
      _ (by decide)⟩

/-- C6: with a document root `root` and a request line whose first three
tokens are `GET`, a path token `/F` in the path grammar other than `/..`, and
`HTTP/1.0` or `HTTP/1.1` (method and protocol up to the case of letters), when
`root` joined with `F` exists and is a regular file (both queries answer
true), the outcome is status 200 with that joined path; `F` is the path token
less its one leading slash, its case kept. -/
theorem process_command_found (fsys : filesystem) (client : client_t)
    (root m F v : std_string)
    (hm : token 0 client = some m) (hget : iequal m "GET".toList = true)
    (hp : token 1 client = some ('/' :: F)) (hgrammar : path_grammar ('/' :: F) = true)
    (hdots : '/' :: F ≠ "/..".toList)
    (hv : token 2 client = some v) (hproto : protocol_grammar v = true)
    (hexists : fs_exists fsys (path_append root F) = .ok true)
    (hregular : fs_is_regular_file fsys (path_append root F) = .ok true) :
    (process_command fsys client (some root)).1 = .ok (200, some (path_append root F)) := by
  rw [process_command_valid_tokens fsys client root m ('/' :: F) v hm hget hp hgrammar hdots hv
    hproto]
  exact file_check_found fsys _ hexists hregular

/-- Witness of C6: a request for `/index.html` under `/srv` gets status 200
and the path `/srv/index.html`. -/
theorem process_command_found_witness :
    (process_command sample_fs (stdio "get /index.html http/1.1\r\n\r\n".toList)
      (some "/srv".toList)).1 = .ok (200, some "/srv/index.html".toList) :=
  process_command_found sample_fs _ "/srv".toList "get".toList "index.html".toList
    "http/1.1".toList
    (by decide) (by decide) (by decide) (by decide) (by decide) (by decide) (by decide)
    (by decide) (by decide)

/-- C7: an outcome of `process_command` carries a path if and only if its
status is 200, for every input, document root and filesystem. -/
theorem process_command_path_iff_200 (fsys : filesystem) (client : client_t)
    (docroot : maybe_path) (rv : cmd_rv_t)
    (h : (process_command fsys client docroot).1 = .ok rv) :
    rv.2.isSome = true ↔ rv.1 = 200 := by
  rcases process_command_cases fsys client docroot rv h with ⟨P, hP, _, _⟩ | hmem
  · rw [hP]; simp
  · simp only [List.mem_cons, List.mem_singleton, List.not_mem_nil, or_false] at hmem
    rcases hmem with h | h | h | h | h <;> rw [h] <;> simp

/-- Witness of C7: the outcome for an existing file has status 200 and a
path; the outcome for a missing file has neither. -/
theorem process_command_path_iff_200_witness :
    (((200 : Nat), some "/srv/index.html".toList).2.isSome = true ↔
      ((200 : Nat), some "/srv/index.html".toList).1 = 200) ∧
    (((404 : Nat), (none : maybe_path)).2.isSome = true ↔
      ((404 : Nat), (none : maybe_path)).1 = 200) :=
  ⟨process_command_path_iff_200 sample_fs (stdio "GET /index.html HTTP/1.0\r\n\r\n".toList)
      (some "/srv".toList) (200, some "/srv/index.html".toList) (by decide),
    process_command_path_iff_200 sample_fs (stdio "GET /missing.html HTTP/1.0\r\n\r\n".toList)
      (some "/srv".toList) (404, none) (by decide)⟩

/-- C8: a path that `process_command` returns is an existing regular file
under the document root: there is a document root, and the path is that root
joined with one name (written after the root, with a slash in between unless
the root already ends in one) that is not empty, is made of letters, digits,
underscores, hyphens and dots only, holds no slash and is not `..`; and the
filesystem reports the path as existing and as a regular file. -/
theorem process_command_path_is_file (fsys : filesystem) (client : client_t)
    (docroot : maybe_path) (code : Nat) (P : std_string)
    (h : (process_command fsys client docroot).1 = .ok (code, some P)) :
    ∃ root name, docroot = some root ∧ P = path_append root name ∧
      (P = root ++ name ∨ P = root ++ '/' :: name) ∧
      name ≠ [] ∧ (∀ c ∈ name, name_char c = true) ∧ '/' ∉ name ∧ name ≠ "..".toList ∧
      fs_exists fsys P = .ok true ∧ fs_is_regular_file fsys P = .ok true := by
  cases docroot with
  | none => rw [process_command_no_docroot_aux] at h; cases h
  | some root =>
    rw [process_command_eq, outcome_of_tokens_spec] at h
    simp only [] at h
    generalize words (request_line client.in_) = ws at h
    rcases ws with _ | ⟨m, _ | ⟨p, _ | ⟨v, t⟩⟩⟩
    · cases h
    · simp only [] at h
      split_ifs at h <;> cases h
    · simp only [] at h
      split_ifs at h <;> cases h
    · simp only [] at h
      split_ifs at h with h1 h2 h3
      · cases h
      · cases h
      · cases h
      · have hg : path_grammar p = true := by
          cases hpg : path_grammar p
          · exact absurd (Or.inl hpg) h2
          · rfl
        have hd : p ≠ "/..".toList := fun e => h2 (Or.inr e)
        obtain ⟨name, rfl, hne, hall⟩ := (path_grammar_iff p).1 hg
        have hslash : '/' ∉ name := fun hmem => by
          have := hall '/' hmem
          revert this
          decide
        simp only [List.drop_succ_cons, List.drop_zero] at h
        rcases file_check_cases fsys _ _ h with h4 | ⟨h4, hE, hR⟩
        · cases h4
        · simp only [Prod.mk.injEq, Option.some.injEq] at h4
          obtain ⟨_, rfl⟩ := h4
          refine ⟨root, name, rfl, rfl, path_append_name root name hne hslash, hne, hall, hslash,
            ?_, hE, hR⟩
          intro e
          exact hd (by rw [e]; rfl)

/-- Witness of C8: the path returned for `/index.html` under `/srv`. -/
theorem process_command_path_is_file_witness :
    ∃ root name, some "/srv".toList = some root ∧
      "/srv/index.html".toList = path_append root name ∧
      ("/srv/index.html".toList = root ++ name ∨ "/srv/index.html".toList = root ++ '/' :: name) ∧
      name ≠ [] ∧ (∀ c ∈ name, name_char c = true) ∧ '/' ∉ name ∧ name ≠ "..".toList ∧
      fs_exists sample_fs "/srv/index.html".toList = .ok true ∧
      fs_is_regular_file sample_fs "/srv/index.html".toList = .ok true :=
  process_command_path_is_file sample_fs (stdio "GET /index.html HTTP/1.0\r\n\r\n".toList)
    (some "/srv".toList) 200 "/srv/index.html".toList (by decide)

/-! ## Reading lines from the client -/

theorem getline_out (client : client_t) (s : std_string) :
    (http.getline client s).1.out_ = client.out_ := rfl

theorem getline_in (client : client_t) (s : std_string) :
    (http.getline client s).1.in_ = (std_getline client.in_ []).1 := rfl

theorem getline_line (client : client_t) (s : std_string) :
    (http.getline client s).2 =
      (if (std_getline client.in_ []).2 = ['\r'] then [] else (std_getline client.in_ []).2) :=
  rfl

theorem getline_trace_eq (client : client_t) (s : std_string) :
    (http.getline client s).1.trace = client.trace ++
      [io_event.read (client.in_.buf.take
        (client.in_.buf.length - (http.getline client s).1.in_.buf.length))] := rfl

theorem std_getline_not_good (is : istream) (l : std_string) (hg : is.good = false) :
    std_getline is l = ({ is with failbit := true }, l) := by
  simp [std_getline, hg]

theorem std_getline_at_end (is : istream) (l : std_string) (hg : is.good = true)
    (hd : is.buf.dropWhile (fun c => c != '\n') = []) :
    std_getline is l =
      ({ buf := []
         eofbit := true
         failbit := (is.buf.takeWhile (fun c => c != '\n')).isEmpty },
        is.buf.takeWhile (fun c => c != '\n')) := by
  simp [std_getline, hg, hd]

theorem std_getline_newline (is : istream) (l : std_string) (hg : is.good = true)
    (x : Char) (r : std_string) (hd : is.buf.dropWhile (fun c => c != '\n') = x :: r) :
    std_getline is l = ({ is with buf := r }, is.buf.takeWhile (fun c => c != '\n')) := by
  simp [std_getline, hg, hd]

/-- What `std::getline` leaves in the stream is the end of what it found. -/
theorem std_getline_append (is : istream) (l : std_string) :
    is.buf = is.buf.take (is.buf.length - (std_getline is l).1.buf.length)
      ++ (std_getline is l).1.buf := by
  cases hg : is.good
  · rw [std_getline_not_good is l hg]
    simp
  · cases hd : is.buf.dropWhile (fun c => c != '\n') with
    | nil =>
      rw [std_getline_at_end is l hg hd]
      simp
    | cons x r =>
      rw [std_getline_newline is l hg x r hd]
      have hb : is.buf = (is.buf.takeWhile (fun c => c != '\n') ++ [x]) ++ r := by
        rw [List.append_assoc, List.singleton_append, ← hd, List.takeWhile_append_dropWhile]
      have hlen : is.buf.length - r.length
          = (is.buf.takeWhile (fun c => c != '\n') ++ [x]).length := by
        have := congrArg List.length hb
        rw [List.length_append] at this
        omega
      show is.buf = is.buf.take (is.buf.length - r.length) ++ r
      rw [hlen]
      generalize is.buf.takeWhile (fun c => c != '\n') = T at hb
      have ht : is.buf.take (T ++ [x]).length = T ++ [x] := by
        conv_lhs => rw [hb]
        exact List.take_left _ _
      rw [ht]
      exact hb

/-- One call of `http::getline` adds one read to the history; the characters
of that read and what is left in the input make up what the input held; the
output is not touched. -/
theorem getline_trace (client : client_t) (s : std_string) :
    ∃ chars, (http.getline client s).1.trace = client.trace ++ [io_event.read chars] ∧
      client.in_.buf = chars ++ (http.getline client s).1.in_.buf :=
  ⟨_, getline_trace_eq client s, std_getline_append client.in_ []⟩

theorem lines_unfold (s : std_string) :
    lines s = s.takeWhile (fun c => c != '\n') ::
      (match s.dropWhile (fun c => c != '\n') with
        | [] => []
        | _ :: r => lines r) :=
  splitOnP_unfold (fun c => c == '\n') s

theorem unlines_lines (s : std_string) : unlines (lines s) = s :=
  List.intercalate_splitOn s '\n'

theorem isEmpty_normalised (l : std_string) :
    (if l = ['\r'] then [] else l).isEmpty = blank l := by
  unfold blank
  by_cases h : l = ['\r']
  · rw [if_pos h, h]; rfl
  · rw [if_neg h]
    have : (l == ['\r']) = false := beq_eq_false_iff_ne.2 h
    rw [this, Bool.or_false]

theorem after_blank_cons (l : std_string) (ls : List std_string) :
    after_blank (l :: ls) = if blank l then ls else after_blank ls := by
  unfold after_blank
  cases h : blank l <;> simp [List.dropWhile, h]

theorem lines_left_pos (is : istream) : 1 ≤ lines_left is := by
  unfold lines_left
  split <;> omega

theorem consume_request_loop_succ (n : Nat) (client : client_t) :
    consume_request_loop (n + 1) client =
      if (http.getline client []).1.in_.ok && !(http.getline client []).2.isEmpty then
        consume_request_loop n (http.getline client []).1
      else some (http.getline client []).1 := rfl

/-- The loop of `consume_request`, given a bound it does not reach: it writes
nothing, and of a readable input it leaves the lines after the first blank
one; an input at its end or failed is left as it is. -/
theorem consume_request_loop_spec (fuel : Nat) (client : client_t)
    (h : lines_left client.in_ ≤ fuel) :
    ∃ c, consume_request_loop fuel client = some c ∧ c.out_ = client.out_ ∧
      c.in_.buf = (if client.in_.good then unlines (after_blank (lines client.in_.buf))
        else client.in_.buf) := by
  induction fuel generalizing client with
  | zero =>
    have := lines_left_pos client.in_
    omega
  | succ n ih =>
    rw [consume_request_loop_succ]
    cases hg : client.in_.good
    · have hin : (http.getline client []).1.in_ = { (client.in_) with failbit := true } := by
        rw [getline_in, std_getline_not_good _ _ hg]
      have hok : (http.getline client []).1.in_.ok = false := by
        rw [hin]; rfl
      rw [hok]
      refine ⟨_, rfl, rfl, ?_⟩
      rw [hin]
      rfl
    · have hll : lines_left client.in_ = client.in_.buf.length + 2 := by
        simp [lines_left, hg]
      cases hd : client.in_.buf.dropWhile (fun c => c != '\n') with
      | nil =>
        have hin : (http.getline client []).1.in_ =
            { buf := []
              eofbit := true
              failbit := (client.in_.buf.takeWhile (fun c => c != '\n')).isEmpty } := by
          rw [getline_in, std_getline_at_end _ _ hg hd]
        have hspec : unlines (after_blank (lines client.in_.buf)) = [] := by
          rw [lines_unfold, hd, after_blank_cons]
          split <;> rfl
        simp only [hspec, ↓reduceIte]
        split
        · have hle : lines_left (http.getline client []).1.in_ ≤ n := by
            rw [hin]
            show 1 ≤ n
            omega
          obtain ⟨c, hc1, hc2, hc3⟩ := ih _ hle
          refine ⟨c, hc1, hc2, ?_⟩
          rw [hc3, hin]
          rfl
        · refine ⟨_, rfl, rfl, ?_⟩
          rw [hin]
      | cons x r =>
        have hin : (http.getline client []).1.in_ = { (client.in_) with buf := r } := by
          rw [getline_in, std_getline_newline _ _ hg x r hd]
        have hl : (http.getline client []).2.isEmpty
            = blank (client.in_.buf.takeWhile (fun c => c != '\n')) := by
          rw [getline_line, std_getline_newline _ _ hg x r hd]
          exact isEmpty_normalised _
        have hlen : r.length < client.in_.buf.length := by
          have h1 : (client.in_.buf.dropWhile (fun c => c != '\n')).length
              ≤ client.in_.buf.length := (List.dropWhile_sublist _).length_le
          rw [hd, List.length_cons] at h1
          omega
        have hg1 : istream.good { (client.in_) with buf := r } = true := hg
        have hlines : lines client.in_.buf
            = client.in_.buf.takeWhile (fun c => c != '\n') :: lines r := by
          rw [lines_unfold, hd]
        have hok : (http.getline client []).1.in_.ok = true := by
          rw [hin]
          simp only [istream.good, Bool.and_eq_true, Bool.not_eq_true'] at hg
          simp [istream.ok, hg.2]
        simp only [↓reduceIte]
        rw [hlines, after_blank_cons, hok, hl, Bool.true_and]
        cases hb : blank (client.in_.buf.takeWhile (fun c => c != '\n'))
        · simp only [Bool.not_false, ↓reduceIte, Bool.false_eq_true]
          have hle : lines_left (http.getline client []).1.in_ ≤ n := by
            rw [hin]
            have : lines_left { (client.in_) with buf := r } = r.length + 2 := by
              simp [lines_left, hg1]
            omega
          obtain ⟨c, hc1, hc2, hc3⟩ := ih _ hle
          refine ⟨c, hc1, hc2, ?_⟩
          rw [hc3, hin, hg1]
          rfl
        · simp only [Bool.not_true, Bool.false_eq_true, ↓reduceIte]
          refine ⟨_, rfl, rfl, ?_⟩
          rw [hin]
          exact (unlines_lines r).symm

/-- The history that the loop of `consume_request` leaves: it adds reads only,
and the characters of those reads and what is left in the input make up what
the input held. -/
theorem consume_request_loop_trace (fuel : Nat) (client c : client_t)
    (h : consume_request_loop fuel client = some c) :
    ∃ rs, c.trace = client.trace ++ rs ∧ (∀ e ∈ rs, e.is_read = true) ∧
      client.in_.buf = (rs.map io_event.consumed).flatten ++ c.in_.buf := by
  induction fuel generalizing client with
  | zero => cases h
  | succ n ih =>
    rw [consume_request_loop_succ] at h
    obtain ⟨chars, ht, hb⟩ := getline_trace client []
    split at h
    · obtain ⟨rs, h1, h2, h3⟩ := ih _ h
      refine ⟨io_event.read chars :: rs, ?_, ?_, ?_⟩
      · rw [h1, ht]; simp
      · intro e he
        rcases List.mem_cons.1 he with rfl | he
        · rfl
        · exact h2 e he
      · rw [hb, h3]
        simp [io_event.consumed]
    · cases h
      refine ⟨[io_event.read chars], ht, ?_, ?_⟩
      · intro e he
        rw [List.mem_singleton.1 he]
        rfl
      · rw [hb]
        simp [io_event.consumed]

theorem unlines_cons_cons (x y : std_string) (t : List std_string) :
    unlines (x :: y :: t) = x ++ '\n' :: unlines (y :: t) := by
  simp [unlines, List.intercalate, List.intersperse]

theorem unlines_append (a b : List std_string) :
    ∃ before, unlines (a ++ b) = before ++ unlines b := by
  induction a with
  | nil => exact ⟨[], rfl⟩
  | cons x a ih =>
    obtain ⟨p, hp⟩ := ih
    cases hab : a ++ b with
    | nil =>
      have hb : b = [] := (List.append_eq_nil.1 hab).2
      refine ⟨unlines [x], ?_⟩
      rw [List.cons_append, hab, hb]
      simp [unlines, List.intercalate]
    | cons y t =>
      refine ⟨x ++ '\n' :: p, ?_⟩
      rw [List.cons_append, hab, unlines_cons_cons, ← hab, hp]
      simp

theorem after_blank_append (ls : List std_string) : ∃ a, ls = a ++ after_blank ls := by
  refine ⟨ls.takeWhile (fun l => !blank l) ++ (ls.dropWhile (fun l => !blank l)).take 1, ?_⟩
  unfold after_blank
  rw [List.append_assoc, List.take_append_drop, List.takeWhile_append_dropWhile]

/-- What a request leaves unread is the end of the input. -/
theorem unread_append (is : istream) : ∃ consumed, is.buf = consumed ++ unread is := by
  unfold unread
  cases hg : is.good
  · exact ⟨[], rfl⟩
  · simp only [↓reduceIte]
    obtain ⟨a, ha⟩ := after_blank_append ((lines is.buf).drop 1)
    obtain ⟨p, hp⟩ := unlines_append ((lines is.buf).take 1 ++ a)
      (after_blank ((lines is.buf).drop 1))
    refine ⟨p, ?_⟩
    rw [← hp, List.append_assoc, ← ha, List.take_append_drop, unlines_lines]

/-! ## The orchestrator -/

theorem process_command_client (fsys : filesystem) (client : client_t) (docroot : maybe_path) :
    (process_command fsys client docroot).2 = (http.getline client []).1 := by
  cases docroot with
  | none => rfl
  | some root => rw [process_command_eq]

/-- The input after `process_command` and `consume_request`: nothing has been
written, what is unread is what follows the first blank line after the request
line, and the history has grown by reads only, whose characters are what has
left the input. -/
theorem drain_spec (fsys : filesystem) (client : client_t) (docroot : maybe_path) :
    ∃ c, consume_request (process_command fsys client docroot).2 = some c ∧
      c.out_ = client.out_ ∧ c.in_.buf = unread client.in_ ∧
      ∃ rs, c.trace = client.trace ++ rs ∧ (∀ e ∈ rs, e.is_read = true) ∧
        client.in_.buf = (rs.map io_event.consumed).flatten ++ c.in_.buf := by
  rw [process_command_client]
  have hfuel : ∀ c : client_t, lines_left c.in_ ≤ c.in_.buf.length + 2 := by
    intro c
    unfold lines_left
    split <;> omega
  obtain ⟨c, hc1, hc2, hc3⟩ :=
    consume_request_loop_spec _ (http.getline client []).1 (hfuel _)
  obtain ⟨rs, hr1, hr2, hr3⟩ := consume_request_loop_trace _ _ c hc1
  obtain ⟨chars, ht, hb⟩ := getline_trace client []
  refine ⟨c, hc1, hc2, ?_, io_event.read chars :: rs, ?_, ?_, ?_⟩
  · rw [hc3]
    unfold unread
    cases hg : client.in_.good
    · rw [getline_in, std_getline_not_good _ _ hg]
      simp [istream.good]
    · cases hd : client.in_.buf.dropWhile (fun c => c != '\n') with
      | nil =>
        rw [getline_in, std_getline_at_end _ _ hg hd, lines_unfold client.in_.buf, hd]
        simp [istream.good, after_blank, unlines, List.intercalate]
      | cons x r =>
        rw [getline_in, std_getline_newline _ _ hg x r hd, lines_unfold client.in_.buf, hd]
        have hg1 : istream.good { (client.in_) with buf := r } = true := hg
        simp [hg1]
  · rw [hr1, ht]; simp
  · intro e he
    rcases List.mem_cons.1 he with rfl | he
    · rfl
    · exact hr2 e he
  · rw [hb, hr3]
    simp [io_event.consumed]

theorem serve_of_throw (pf : platform) (fsys : filesystem) (st : status_map)
    (client : client_t) (docroot : maybe_path) (e : filesystem_error)
    (h : (process_command fsys client docroot).1 = .error e) :
    serve pf fsys st client docroot = some (.error e, (http.getline client []).1, st) := by
  unfold serve
  simp only []
  rw [h, process_command_client]

theorem serve_of_consume (pf : platform) (fsys : filesystem) (st : status_map)
    (client : client_t) (docroot : maybe_path) (rv : cmd_rv_t) (c : client_t)
    (h : (process_command fsys client docroot).1 = .ok rv)
    (hc : consume_request (process_command fsys client docroot).2 = some c) :
    serve pf fsys st client docroot =
      some ((send_file pf fsys (report_status pf st c (rv.1 : Nat)).2 rv.2).1,
        (send_file pf fsys (report_status pf st c (rv.1 : Nat)).2 rv.2).2,
        (report_status pf st c (rv.1 : Nat)).1) := by
  unfold serve
  simp only []
  rw [h]
  simp only [hc]

theorem report_status_in (pf : platform) (st : status_map) (c : client_t) (code : Int) :
    (report_status pf st c code).2.in_ = c.in_ := rfl

theorem report_status_table (pf : platform) (st : status_map) (c : client_t) (code : Int) :
    (report_status pf st c code).1 = (st.index code).2 := rfl

theorem report_status_trace (pf : platform) (st : status_map) (c : client_t) (code : Int) :
    ∃ data, (report_status pf st c code).2.trace = c.trace ++ [io_event.write data] :=
  ⟨_, rfl⟩

theorem send_file_in (pf : platform) (fsys : filesystem) (c : client_t) (path : maybe_path) :
    (send_file pf fsys c path).2.in_ = c.in_ := by
  cases path with
  | none => rfl
  | some p =>
    unfold send_file
    simp only []
    cases fs_last_write_time fsys p <;> rfl

theorem send_file_trace (pf : platform) (fsys : filesystem) (c : client_t) (path : maybe_path) :
    ∃ ws, (send_file pf fsys c path).2.trace = c.trace ++ ws ∧
      ∀ e ∈ ws, e.is_read = false := by
  cases path with
  | none => exact ⟨[], by simp [send_file], by simp⟩
  | some p =>
    unfold send_file
    simp only []
    cases fs_last_write_time fsys p with
    | error e => exact ⟨[], by simp, by simp⟩
    | ok mtime =>
      refine ⟨[io_event.write ("Last-Modified: ".toList ++ torfc1123 pf (from_time_t mtime)
        ++ "\r\n".toList
        ++ "Content-Type: application/octet-stream".toList ++ "\r\n".toList
        ++ "\r\n".toList), io_event.write (fsys.ifstream p)], ?_, ?_⟩
      · simp [write]
      · intro e he
        simp only [List.mem_cons, List.mem_singleton, List.not_mem_nil, or_false] at he
        rcases he with rfl | rfl <;> rfl

set_option maxRecDepth 100000 in
/-- Counterexample to C11 as stated: for the well-formed request for a name of
256 characters, followed by a header, the empty line and a body, `stat` fails
with `ENAMETOOLONG`, `fs::exists` throws, and the exception leaves `serve`
after the request line alone has been read: the header and the empty line are
still unread, where the claim has only the body left, and nothing has been
written. -/
theorem serve_long_name_leaves_headers :
    serve sample_platform sample_fs status (stdio long_request) (some "/srv".toList) =
      some (.error { errno := ENAMETOOLONG }, (http.getline (stdio long_request) []).1,
        status) ∧
    (http.getline (stdio long_request) []).1.in_.buf = "Host: example\r\n\r\nBODY".toList ∧
    (http.getline (stdio long_request) []).1.out_.written = [] ∧
    unread (stdio long_request).in_ = "BODY".toList := by
  decide

/-- C11, amended: whenever `process_command` returns an outcome (whatever its
status, an absent document root included), `serve` returns, the input it
leaves unread is what follows the first line after the request line that is
empty or a lone carriage return (nothing, when there is no such line), and in
the history of the client it has added first reads alone and then writes
alone: every read precedes every write, and the characters that the reads
took, in their order, followed by the unread rest, are the input.  When
`process_command` throws instead (a filesystem query failed), the exception
leaves `serve` with the client as the one call of `http::getline` for the
request line left it: the lines after the request line are not read, and
nothing is written. -/
theorem serve_consumes (pf : platform) (fsys : filesystem) (st : status_map)
    (client : client_t) (docroot : maybe_path) :
    (∀ rv, (process_command fsys client docroot).1 = .ok rv →
      ∃ sent client' st' rs ws,
        serve pf fsys st client docroot = some (sent, client', st') ∧
        client'.in_.buf = unread client.in_ ∧
        client'.trace = client.trace ++ rs ++ ws ∧
        (∀ e ∈ rs, e.is_read = true) ∧
        (∀ e ∈ ws, e.is_read = false) ∧
        client.in_.buf = (rs.map io_event.consumed).flatten ++ unread client.in_) ∧
    (∀ e, (process_command fsys client docroot).1 = .error e →
      serve pf fsys st client docroot = some (.error e, (http.getline client []).1, st) ∧
      (http.getline client []).1.out_ = client.out_ ∧
      (http.getline client []).1.in_ = (std_getline client.in_ []).1) := by
  refine ⟨fun rv hpc => ?_, fun e he => ⟨serve_of_throw pf fsys st client docroot e he,
    getline_out client [], getline_in client []⟩⟩
  obtain ⟨c, hc1, _, hc3, rs, hr1, hr2, hr3⟩ := drain_spec fsys client docroot
  obtain ⟨data, hd⟩ := report_status_trace pf st c (rv.1 : Nat)
  obtain ⟨ws, hw1, hw2⟩ := send_file_trace pf fsys (report_status pf st c (rv.1 : Nat)).2 rv.2
  refine ⟨_, _, _, rs, io_event.write data :: ws,
    serve_of_consume pf fsys st client docroot rv c hpc hc1, ?_, ?_, hr2, ?_, ?_⟩
  · rw [send_file_in, report_status_in, hc3]
  · rw [hw1, hd, hr1]
    simp
  · intro e he
    rcases List.mem_cons.1 he with rfl | he
    · rfl
    · exact hw2 e he
  · rw [← hc3]
    exact hr3

set_option maxRecDepth 100000 in
/-- Witness of C11, amended: a request for the sample file with a header and
a body is answered after three reads, which take the request line, the header
and the empty line, and leave the body; the request for the name that is too
long leaves `serve` by the exception, with the header unread. -/
theorem serve_consumes_witness :
    (∃ sent client' st' rs ws,
      serve sample_platform sample_fs status
        (stdio "GET /index.html HTTP/1.0\r\nHost: example\r\n\r\nBODY".toList)
        (some "/srv".toList) = some (sent, client', st') ∧
      client'.in_.buf = "BODY".toList ∧
      client'.trace = rs ++ ws ∧
      (∀ e ∈ rs, e.is_read = true) ∧
      (∀ e ∈ ws, e.is_read = false) ∧
      "GET /index.html HTTP/1.0\r\nHost: example\r\n\r\nBODY".toList
        = (rs.map io_event.consumed).flatten ++ "BODY".toList) ∧
    serve sample_platform sample_fs status (stdio long_request) (some "/srv".toList) =
      some (.error { errno := ENAMETOOLONG }, (http.getline (stdio long_request) []).1,
        status) := by
  constructor
  · obtain ⟨sent, client', st', rs, ws, h1, h2, h3, h4, h5, h6⟩ :=
      (serve_consumes sample_platform sample_fs status
        (stdio "GET /index.html HTTP/1.0\r\nHost: example\r\n\r\nBODY".toList)
        (some "/srv".toList)).1 (200, some "/srv/index.html".toList) (by decide)
    have hu : unread (stdio "GET /index.html HTTP/1.0\r\nHost: example\r\n\r\nBODY".toList).in_
        = "BODY".toList := by decide
    rw [hu] at h2 h6
    exact ⟨sent, client', st', rs, ws, h1, h2, by simpa [stdio] using h3, h4, h5, h6⟩
  · exact ((serve_consumes sample_platform sample_fs status (stdio long_request)
      (some "/srv".toList)).2 _ (by decide)).1

/-- An example of `unread`: after the request line and one header, the blank
line ends what `serve` reads. -/
theorem unread_example :
    unread (stdio "GET / HTTP/1.0\r\nHost: example\r\n\r\nBODY\n\nmore".toList).in_
      = "BODY\n\nmore".toList := by
  decide

/-! ## The emitter, the start of the process, and the shape of outcomes -/

/-- C12: `send_file` with an absent path returns false and hands back the
client as it got it, so nothing is written; and it does so whatever the
filesystem (and the clock) are, that is, without consulting them. -/
theorem send_file_absent (pf : platform) (fsys : filesystem) (client : client_t) :
    send_file pf fsys client none = (.ok false, client) ∧
    ∀ (pf' : platform) (fsys' : filesystem),
      send_file pf' fsys' client none = send_file pf fsys client none :=
  ⟨rfl, fun _ _ => rfl⟩

theorem path_grammar_no_slash (p : std_string) (h : '/' ∈ p.drop 1) :
    path_grammar p = false := by
  cases hg : path_grammar p
  · rfl
  · obtain ⟨name, rfl, _, hall⟩ := (path_grammar_iff p).1 hg
    have := hall '/' (by simpa using h)
    revert this
    decide

/-- Counterexample to C14 as stated: the request line `GET /a/../b HTTP/1.0`,
with a document root present, is answered 400. -/
theorem traversal_segment_rejected :
    (process_command sample_fs (stdio "GET /a/../b HTTP/1.0\r\n\r\n".toList)
      (some "/srv".toList)).1 = .ok (400, none) := by
  decide

/-- C14, amended: with a document root and a `GET` method, the outcome is 400
exactly when the path token is outside the path grammar or is the literal
`/..`; so of the tokens of the grammar the guard rejects `/..` alone, and one
that merely contains `..` is left to the later checks.  A token with a slash
after its first character (as when `..` is a segment of its own) is outside
the path grammar, so it does get 400. -/
theorem traversal_guard (fsys : filesystem) (client : client_t) (root m p : std_string)
    (hm : token 0 client = some m) (hget : iequal m "GET".toList = true)
    (hp : token 1 client = some p) :
    ((∃ path, (process_command fsys client (some root)).1 = .ok (400, path)) ↔
      (path_grammar p = false ∨ p = "/..".toList)) ∧
    ((process_command fsys client (some root)).1 = .ok (400, none) ↔
      (path_grammar p = false ∨ p = "/..".toList)) ∧
    ('/' ∈ p.drop 1 → (process_command fsys client (some root)).1 = .ok (400, none)) := by
  have key : ((process_command fsys client (some root)).1 = .ok (400, none) ↔
      (path_grammar p = false ∨ p = "/..".toList)) ∧
      ∀ path, (process_command fsys client (some root)).1 = .ok (400, path) → path = none := by
    rw [process_command_eq, outcome_of_tokens_spec]
    unfold token at hm hp
    generalize words (request_line client.in_) = ws at hm hp
    rcases ws with _ | ⟨a, _ | ⟨b, _ | ⟨c, t⟩⟩⟩
    · simp at hm
    · simp at hp
    · simp only [List.getElem?_cons_zero, Option.some.injEq] at hm
      simp only [List.getElem?_cons_succ, List.getElem?_cons_zero, Option.some.injEq] at hp
      subst hm hp
      simp only [hget, Bool.true_eq_false, ↓reduceIte]
      by_cases hpg : path_grammar b = false ∨ b = "/..".toList
      · simp only [if_pos hpg]
        refine ⟨⟨fun _ => hpg, fun _ => trivial⟩, fun path h => ?_⟩
        simp only [Except.ok.injEq, Prod.mk.injEq, true_and] at h
        exact h.symm
      · simp only [if_neg hpg]
        exact ⟨⟨fun h => by simp at h, fun h => absurd h hpg⟩, fun path h => by simp at h⟩
    · simp only [List.getElem?_cons_zero, Option.some.injEq] at hm
      simp only [List.getElem?_cons_succ, List.getElem?_cons_zero, Option.some.injEq] at hp
      subst hm hp
      simp only [hget, Bool.true_eq_false, ↓reduceIte]
      by_cases hpg : path_grammar b = false ∨ b = "/..".toList
      · simp only [if_pos hpg]
        refine ⟨⟨fun _ => hpg, fun _ => trivial⟩, fun path h => ?_⟩
        simp only [Except.ok.injEq, Prod.mk.injEq, true_and] at h
        exact h.symm
      · simp only [if_neg hpg]
        by_cases hv : protocol_grammar c = false
        · simp only [if_pos hv]
          exact ⟨⟨fun h => by simp at h, fun h => absurd h hpg⟩, fun path h => by simp at h⟩
        · simp only [if_neg hv]
          have hne : ∀ path,
              file_check fsys (path_append root (b.drop 1)) ≠ .ok (400, path) := by
            intro path h
            rcases file_check_cases fsys _ _ h with h | ⟨h, _, _⟩ <;> simp at h
          exact ⟨⟨fun h => absurd h (hne _), fun h => absurd h hpg⟩,
            fun path h => absurd h (hne _)⟩
  refine ⟨⟨?_, fun h => ⟨none, key.1.2 h⟩⟩, key.1, fun hs =>
    key.1.2 (Or.inl (path_grammar_no_slash p hs))⟩
  rintro ⟨path, h⟩
  have := key.2 path h
  subst this
  exact key.1.1 h

/-- Witness of C14, amended: `GET /a..b HTTP/1.0` is not answered 400 (the
file does not exist, so the answer is 404). -/
theorem traversal_guard_witness :
    (¬ ∃ path, (process_command sample_fs (stdio "GET /a..b HTTP/1.0\r\n\r\n".toList)
      (some "/srv".toList)).1 = .ok (400, path)) ∧
    (process_command sample_fs (stdio "GET /a..b HTTP/1.0\r\n\r\n".toList)
      (some "/srv".toList)).1 = .ok (404, none) :=
  ⟨fun h => absurd
      ((traversal_guard sample_fs (stdio "GET /a..b HTTP/1.0\r\n\r\n".toList) "/srv".toList
        "GET".toList "/a..b".toList (by decide) (by decide) (by decide)).1.1 h)
      (by decide),
    by decide⟩

theorem serve_table (pf : platform) (fsys : filesystem) (client : client_t)
    (docroot : maybe_path) :
    ∃ sent client', serve pf fsys status client docroot = some (sent, client', status) := by
  cases hpc : (process_command fsys client docroot).1 with
  | error e => exact ⟨_, _, serve_of_throw pf fsys status client docroot e hpc⟩
  | ok rv =>
    obtain ⟨c, hc, _, _⟩ := drain_spec fsys client docroot
    have hs := serve_of_consume pf fsys status client docroot rv c hpc hc
    have ht : (report_status pf status c (rv.1 : Nat)).1 = status := by
      rw [report_status_table]
      rcases process_command_cases fsys client docroot rv hpc with ⟨P, hP, _, _⟩ | hmem
      · subst hP
        show (status.index ((200 : Nat) : Int)).2 = status
        decide
      · simp only [List.mem_cons, List.mem_singleton, List.not_mem_nil, or_false] at hmem
        rcases hmem with h | h | h | h | h <;> subst h <;> decide
    rw [ht] at hs
    exact ⟨_, _, hs⟩

/-- C15: the status that `process_command` returns is one of the six codes of
the registry; so the lookup that `report_status` makes for `serve` finds an
entry, the reason phrase it finds is not empty, and the table is after the
lookup what it was before: `serve` hands back the table as initialised (also
when an exception ends it before the lookup). -/
theorem status_lookup_never_misses (pf : platform) (fsys : filesystem) (client : client_t)
    (docroot : maybe_path) :
    (∀ rv, (process_command fsys client docroot).1 = .ok rv →
      rv.1 ∈ ([200, 400, 404, 500, 501, 505] : List Nat) ∧
      (status.lookup ((rv.1 : Nat) : Int)).isSome = true ∧
      (status.index ((rv.1 : Nat) : Int)).1 ≠ [] ∧
      (status.index ((rv.1 : Nat) : Int)).2 = status) ∧
    ∃ sent client', serve pf fsys status client docroot = some (sent, client', status) := by
  refine ⟨fun rv hpc => ?_, serve_table pf fsys client docroot⟩
  have key : rv.1 ∈ ([200, 400, 404, 500, 501, 505] : List Nat) := by
    rcases process_command_cases fsys client docroot rv hpc with ⟨P, hP, _, _⟩ | hmem
    · rw [hP]; simp
    · simp only [List.mem_cons, List.mem_singleton, List.not_mem_nil, or_false] at hmem
      rcases hmem with h | h | h | h | h <;> rw [h] <;> simp
  have all : ∀ code : Nat, code ∈ ([200, 400, 404, 500, 501, 505] : List Nat) →
      (status.lookup (code : Int)).isSome = true ∧ (status.index (code : Int)).1 ≠ [] ∧
        (status.index (code : Int)).2 = status := by
    intro code hcode
    simp only [List.mem_cons, List.mem_singleton, List.not_mem_nil, or_false] at hcode
    rcases hcode with h | h | h | h | h | h <;> subst h <;> decide
  exact ⟨key, all _ key⟩

/-- Witness of C15: the request for the sample file gets status 200, which the
registry holds with the phrase `Ok`. -/
theorem status_lookup_never_misses_witness :
    (200 : Nat) ∈ ([200, 400, 404, 500, 501, 505] : List Nat) ∧
    (status.lookup ((200 : Nat) : Int)).isSome = true ∧
    (status.index ((200 : Nat) : Int)).1 ≠ [] ∧
    (status.index ((200 : Nat) : Int)).2 = status :=
  (status_lookup_never_misses sample_platform sample_fs
    (stdio "GET /index.html HTTP/1.0\r\n\r\n".toList) (some "/srv".toList)).1
    (200, some "/srv/index.html".toList) (by decide)

theorem outcome_of_tokens_take (fsys : filesystem) (root : std_string) (ws : List std_string) :
    outcome_of_tokens fsys root ws = outcome_of_tokens fsys root (ws.take 3) := by
  rcases ws with _ | ⟨a, _ | ⟨b, _ | ⟨c, t⟩⟩⟩ <;> rfl

/-- C17: the outcome of `process_command` depends on the request line only
through its first three tokens: two inputs whose request lines have the same
first three tokens get the same outcome (or the same exception), for the same
document root and filesystem, whatever whitespace stands between and around
the tokens and whatever follows the third. -/
theorem process_command_first_three_tokens (fsys : filesystem) (docroot : maybe_path)
    (client1 client2 : client_t)
    (h : (words (request_line client1.in_)).take 3 = (words (request_line client2.in_)).take 3) :
    (process_command fsys client1 docroot).1 = (process_command fsys client2 docroot).1 := by
  cases docroot with
  | none => rw [process_command_no_docroot_aux, process_command_no_docroot_aux]
  | some root =>
    rw [process_command_eq, process_command_eq]
    show outcome_of_tokens fsys root _ = outcome_of_tokens fsys root _
    rw [outcome_of_tokens_take fsys root (words (request_line client1.in_)), h,
      ← outcome_of_tokens_take]

/-- Witness of C17: `GET /a HTTP/1.0`, the same line with a trailing carriage
return, and the same tokens with other whitespace and with further tokens get
the same outcome. -/
theorem process_command_first_three_tokens_witness :
    (process_command sample_fs (stdio "GET /a HTTP/1.0".toList) (some "/srv".toList)).1
      = (process_command sample_fs (stdio "GET /a HTTP/1.0\r".toList) (some "/srv".toList)).1 ∧
    (process_command sample_fs (stdio "GET /a HTTP/1.0".toList) (some "/srv".toList)).1
      = (process_command sample_fs (stdio "  GET\t/a  HTTP/1.0 extra junk".toList)
          (some "/srv".toList)).1 :=
  ⟨process_command_first_three_tokens sample_fs _ _ _ (by decide),
    process_command_first_three_tokens sample_fs _ _ _ (by decide)⟩

end publicset
